import Mathlib

/-!
Shallow embedding of `totxt.py` (class `SourceCodeConverter`): a repository
scanner that walks a directory tree, filters files (size threshold, null-byte
binary sniff, ignore patterns), decodes each accepted file and concatenates
the results into one output document.

Bytes are modelled as `Nat` (values `< 256` in practice, though nothing below
depends on that bound), file contents as `List Nat`, decoded text as `String`.
The filesystem is a sibling-chain tree (`FS`).  Fallible I/O is modelled by
explicit per-file error flags, and the external `chardet` library and Python's
codec registry are oracle parameters.
-/

/-- Per-file data as seen by the scanner: raw byte content plus flags saying
which of the three `open`/`getsize` call sites raise an I/O error for this
file (`classifyError` covers `os.path.getsize` and the sniff `open` inside
`is_text_file`, `detectError` the `open` inside `detect_encoding`,
`readError` the `open` inside `read_source_file`). -/
structure FileData where
  content : List Nat
  classifyError : Bool
  detectError : Bool
  readError : Bool
deriving DecidableEq, Repr

/-- A directory listing, as an ordered sibling chain of entries: either a
regular file with its data, or a subdirectory with its own listing.  The
order of the chain is the order `os.walk` reports entries in. -/
inductive FS where
  | nil : FS
  | file (name : String) (data : FileData) (rest : FS) : FS
  | dir (name : String) (sub : FS) (rest : FS) : FS
deriving DecidableEq, Repr

/-- The static directory blocklist `self.exclude_dirs` from
`SourceCodeConverter.__init__` (line 39 of `totxt.py`). -/
def exclude_dirs : List String :=
  [".git", "node_modules", ".venv", "venv", "__pycache__", "dist", "build"]

/-- The `max_file_size` field set in `__init__`: the CLI value is in KB and is
converted to bytes by `max_file_size * 1024` (line 38 of `totxt.py`). -/
def initMaxFileSize (maxKB : Nat) : Nat := maxKB * 1024

/-- Regular files of one directory listing (not descending), each paired with
its path `path ++ [name]`; this is the `files` component of one `os.walk`
step, in listing order. -/
def filesOf (path : List String) : FS → List (List String × FileData)
  | FS.nil => []
  | FS.file n d rest => (path ++ [n], d) :: filesOf path rest
  | FS.dir _ _ rest => filesOf path rest

/-- Recursive descent into the subdirectories of a listing, skipping any whose
name is in `exclude_dirs` — this models
`dirs[:] = [d for d in dirs if d not in self.exclude_dirs]` (line 151):
pruned subtrees are never visited at all.  For each kept subdirectory the
files of that directory come first, then its own subdirectories, matching
top-down `os.walk` order as consumed by `convert_repository`. -/
def walkDirs (path : List String) : FS → List (List String × FileData)
  | FS.nil => []
  | FS.file _ _ rest => walkDirs path rest
  | FS.dir n sub rest =>
    (if n ∈ exclude_dirs then []
     else filesOf (path ++ [n]) sub ++ walkDirs (path ++ [n]) sub) ++
    walkDirs path rest

/-- All files visited by the `os.walk` loop of `convert_repository`
(lines 150-153), in visit order: files of the root listing first, then the
recursive descent.  Every file the program ever stats or opens is in this
list. -/
def walk (path : List String) (fs : FS) : List (List String × FileData) :=
  filesOf path fs ++ walkDirs path fs

/-- Embedding of `SourceCodeConverter.load_gitignore` (lines 43-56): the
ignore file is given as `none` (file absent) or `some lines`; each stripped,
non-empty, non-`#` line becomes a pattern.  The Python code stores patterns
in a `set`; only membership is ever consulted, so a list is an equivalent
model. -/
def load_gitignore (ignoreLines : Option (List String)) : List String :=
  match ignoreLines with
  | none => []
  | some lines =>
    (lines.map String.trim).filter fun l => l ≠ ("") && !(String.startsWith l ("#"))

/-- Splits a character list at `/` separators, keeping empty segments;
helper for the `pathlib` pattern parsing model. -/
def splitOnSlash : List Char → List (List Char)
  | [] => [[]]
  | c :: cs =>
    let r := splitOnSlash cs
    if c = '/' then [] :: r
    else
      match r with
      | [] => [[c]]
      | h :: t => (c :: h) :: t

/-- Pattern/path components: split at `/` and drop empty segments, as
`pathlib.PurePath` parsing does. -/
def parseParts (cs : List Char) : List (List Char) :=
  (splitOnSlash cs).filter fun seg => seg ≠ []

/-- Fuel-driven worker for `fnmatchComp`.  Every recursive call strictly
decreases `ps.length + s.length`, so fuel `ps.length + s.length + 1` always
reaches a base case before running out. -/
def fnmatchGo : Nat → List Char → List Char → Bool
  | 0, _, _ => false
  | _ + 1, [], [] => true
  | _ + 1, [], _ :: _ => false
  | fuel + 1, '*' :: ps, s =>
    fnmatchGo fuel ps s ||
      (match s with
       | [] => false
       | _ :: s2 => fnmatchGo fuel ('*' :: ps) s2)
  | fuel + 1, '?' :: ps, s =>
    (match s with
     | [] => false
     | _ :: s2 => fnmatchGo fuel ps s2)
  | fuel + 1, p :: ps, s =>
    (match s with
     | [] => false
     | c :: s2 => p = c && fnmatchGo fuel ps s2)

/-- Modelled from Python's `fnmatch`-style single-component glob matching as
used by `PurePath.match`: `*` matches any (possibly empty) run of characters,
`?` any single character, anything else itself.  First argument is the
pattern, second the candidate component. -/
def fnmatchComp (ps s : List Char) : Bool :=
  fnmatchGo (ps.length + s.length + 1) ps s

/-- Modelled from `pathlib.PurePath.match` for a relative, case-sensitive
pattern: the pattern's components must match the final components of the
path, right-aligned (a pattern with fewer components than the path matches
from the right); an empty pattern matches nothing.  `rel` is the path
relative to the repository root, as components. -/
def pathMatch (rel : List String) (pattern : String) : Bool :=
  let pats := parseParts pattern.data
  !pats.isEmpty && decide (pats.length ≤ rel.length) &&
    ((rel.drop (rel.length - pats.length)).zip pats).all fun sp =>
      fnmatchComp sp.2 sp.1.data

/-- Embedding of `SourceCodeConverter.is_ignored` (lines 58-70): the file's
path relative to the root matches some loaded pattern. -/
def is_ignored (patterns : List String) (rel : List String) : Bool :=
  patterns.any fun pattern => pathMatch rel pattern

/-- Embedding of `SourceCodeConverter.is_text_file` (lines 72-91):
reject when the surrounding `try` raises (`classifyError`), when the byte
size exceeds `max_file_size`, or when a null byte occurs among the first
1024 bytes; otherwise accept. -/
def is_text_file (max_file_size : Nat) (f : FileData) : Bool :=
  if f.classifyError then false
  else if max_file_size < f.content.length then false
  else if (f.content.take 1024).contains 0 then false
  else true

/-- Embedding of `SourceCodeConverter.detect_encoding` (lines 93-109):
read the first 10000 bytes, ask the `chardet` oracle, and fall back to
`utf-8` when detection yields nothing or the `try` raises. -/
def detect_encoding (chardet : List Nat → Option String) (f : FileData) : String :=
  if f.detectError then ("utf-8")
  else
    match chardet (f.content.take 10000) with
    | some enc => enc
    | none => ("utf-8")

/-- Embedding of `SourceCodeConverter.read_source_file` (lines 111-127):
detect the encoding, then decode the whole content with it; an I/O error on
the content `open` (`readError`) or a codec-lookup failure (`decode` returns
`none`) yields the empty string.  `decode enc bytes` is an oracle for
Python's `open(..., encoding=enc, errors='ignore')` read. -/
def read_source_file (chardet : List Nat → Option String)
    (decode : String → List Nat → Option String) (f : FileData) : String :=
  let encoding := detect_encoding chardet f
  if f.readError then ("")
  else
    match decode encoding f.content with
    | some s => s
    | none => ("")

/-- The files that pass the acceptance test of the main loop (line 154):
`is_text_file(file_path) and not is_ignored(file_path, repo_path)`, kept in
traversal order. -/
def acceptedFiles (max_file_size : Nat) (patterns : List String) (fs : FS) :
    List (List String × FileData) :=
  (walk [] fs).filter fun pf =>
    is_text_file max_file_size pf.2 && !(is_ignored patterns pf.1)

/-- Python's `s * n` string repetition, as used in `"=" * 50` and
`"-" * 50`. -/
def strMul (s : String) : Nat → String
  | 0 => ("")
  | n + 1 => s ++ strMul s n

/-- Result of a run of `convert_repository`: the text written to the output
file and the reported `processed_files` count. -/
structure ConvertResult where
  document : String
  processed_files : Nat
deriving DecidableEq, Repr

/-- Embedding of `SourceCodeConverter.convert_repository` (lines 129-168) for
a run whose output `open` succeeds and whose per-file writes do not raise:
load the ignore patterns, write the header, then one section per accepted
file in traversal order, counting the sections written.  `maxKB` is the
constructor argument (`max_file_size` in KB), `ignoreLines` the content of
`<root>/.gitignore` as lines (or `none` when absent), `repoPathStr` the
string form of the root path. -/
def convert_repository (maxKB : Nat) (chardet : List Nat → Option String)
    (decode : String → List Nat → Option String)
    (repoPathStr : String) (ignoreLines : Option (List String)) (fs : FS) :
    ConvertResult :=
  let patterns := load_gitignore ignoreLines
  let accepted := acceptedFiles (initMaxFileSize maxKB) patterns fs
  let body := String.join (accepted.map fun pf =>
    ("### SOURCE FILE: ") ++ String.intercalate ("/") pf.1 ++ ("\n") ++
      strMul ("-") 50 ++ ("\n") ++
      read_source_file chardet decode pf.2 ++ ("\n\n"))
  { document :=
      ("# Repository: ") ++ repoPathStr ++ ("\n") ++
        strMul ("=") 50 ++ ("\n\n") ++ body
    processed_files := accepted.length }

/-- Modelled from UTF-8: the byte sequence encoding one Unicode scalar value
`c` (the arithmetic form of the standard 1-4 byte layout). -/
def utf8EncodeChar (c : Nat) : List Nat :=
  if c < 128 then [c]
  else if c < 2048 then [192 + c / 64, 128 + c % 64]
  else if c < 65536 then [224 + c / 4096, 128 + c / 64 % 64, 128 + c % 64]
  else [240 + c / 262144, 128 + c / 4096 % 64, 128 + c / 64 % 64, 128 + c % 64]

/-- The UTF-8 byte sequence of a string, character by character; a file whose
content equals `strUtf8 s` is well-formed UTF-8 holding exactly the text
`s`. -/
def strUtf8 (s : String) : List Nat :=
  s.data.flatMap fun c => utf8EncodeChar c.toNat

/-- Fuel-driven worker for `utf8DecodeIgnore`.  Every step removes at least
one byte from the list, so fuel `bs.length + 1` always reaches the end. -/
def utf8DecodeGo : Nat → List Nat → List Nat
  | 0, _ => []
  | _ + 1, [] => []
  | fuel + 1, b :: bs =>
    if b < 128 then b :: utf8DecodeGo fuel bs
    else if b < 194 then utf8DecodeGo fuel bs
    else if b < 224 then
      match bs with
      | b1 :: bs1 =>
        if 128 ≤ b1 ∧ b1 < 192 then
          ((b - 192) * 64 + (b1 - 128)) :: utf8DecodeGo fuel bs1
        else utf8DecodeGo fuel bs
      | [] => []
    else if b < 240 then
      match bs with
      | b1 :: b2 :: bs2 =>
        if (128 ≤ b1 ∧ b1 < 192) ∧ (128 ≤ b2 ∧ b2 < 192) then
          let c := (b - 224) * 4096 + (b1 - 128) * 64 + (b2 - 128)
          if c < 2048 ∨ (55296 ≤ c ∧ c ≤ 57343) then utf8DecodeGo fuel bs2
          else c :: utf8DecodeGo fuel bs2
        else utf8DecodeGo fuel bs
      | _ => utf8DecodeGo fuel bs
    else if b < 245 then
      match bs with
      | b1 :: b2 :: b3 :: bs3 =>
        if (128 ≤ b1 ∧ b1 < 192) ∧ (128 ≤ b2 ∧ b2 < 192) ∧ (128 ≤ b3 ∧ b3 < 192) then
          let c := (b - 240) * 262144 + (b1 - 128) * 4096 + (b2 - 128) * 64 + (b3 - 128)
          if c < 65536 ∨ 1114112 ≤ c then utf8DecodeGo fuel bs3
          else c :: utf8DecodeGo fuel bs3
        else utf8DecodeGo fuel bs
      | _ => utf8DecodeGo fuel bs
    else utf8DecodeGo fuel bs

/-- Modelled from Python's incremental UTF-8 decoder with the `ignore` error
handler: well-formed sequences yield their scalar value, malformed bytes are
skipped instead of raising.  Overlong forms, surrogates and out-of-range
values are treated as malformed, as CPython does. -/
def utf8DecodeIgnore (bs : List Nat) : List Nat :=
  utf8DecodeGo (bs.length + 1) bs

/-- Modelled from Python's codec registry as used by
`open(path, 'r', encoding=enc, errors='ignore')` followed by `.read()`:
the `utf-8` and `ascii` codecs are modelled concretely (`ignore` drops
undecodable bytes), any other codec name is a lookup failure (`none`),
standing for the exception path of `read_source_file`. -/
def pythonDecode (enc : String) (bs : List Nat) : Option String :=
  if enc = ("utf-8") then
    some (String.mk ((utf8DecodeIgnore bs).map Char.ofNat))
  else if enc = ("ascii") then
    some (String.mk ((bs.filter fun b => b < 128).map Char.ofNat))
  else none

/-- A charset-detection oracle consistent with `chardet`'s documented
behaviour on the inputs it is applied to below: a sample that is entirely
7-bit reports `ascii`, anything else reports `utf-8`. -/
def chardet0 (bs : List Nat) : Option String :=
  if bs.all fun b => b < 128 then some ("ascii") else some ("utf-8")

/-- One output section exactly as section 6 of the specification prints it:
the `### SOURCE FILE:` label line, a 50-character `-` delimiter line, the
decoded content, and a blank-line separator. -/
def specFileSection (relPath content : String) : String :=
  ("### SOURCE FILE: ") ++ relPath ++ ("\n") ++
    String.mk (List.replicate 50 ('-')) ++ ("\n") ++
    content ++ ("\n\n")

/-- The whole output document as section 6 of the specification describes it:
a header line naming the repository root, a 50-character `=` delimiter line,
a blank line, then the given `(relative path, decoded content)` sections in
order. -/
def specDocument (repoPathStr : String) (sections : List (String × String)) : String :=
  ("# Repository: ") ++ repoPathStr ++ ("\n") ++
    String.mk (List.replicate 50 ('=')) ++ ("\n\n") ++
    String.join (sections.map fun sc => specFileSection sc.1 sc.2)

/-- Files listed by `filesOf` live directly in the listed directory: their
path is `path` plus one final name component. -/
theorem mem_filesOf_shape {path : List String} {fs : FS}
    {pf : List String × FileData} (h : pf ∈ filesOf path fs) :
    ∃ n, pf.1 = path ++ [n] := by
  induction fs with
  | nil => simp [filesOf] at h
  | file n d rest ih =>
    rcases (by simpa [filesOf] using h : pf = (path ++ [n], d) ∨ pf ∈ filesOf path rest) with h1 | h1
    · exact ⟨n, by simp [h1]⟩
    · exact ih h1
  | dir n sub rest ihs ihr =>
    exact ihr (by simpa [filesOf] using h)

/-- Any element of `(a :: q).dropLast` is either `a` or an element of
`q.dropLast`. -/
theorem mem_dropLast_cons {a d : String} {q : List String}
    (h : d ∈ (a :: q).dropLast) : d = a ∨ d ∈ q.dropLast := by
  cases q with
  | nil => simp at h
  | cons x xs =>
    rcases (by simpa [List.dropLast_cons₂] using h : d = a ∨ d ∈ (x :: xs).dropLast) with h1 | h1
    · exact Or.inl h1
    · exact Or.inr h1

/-- Every file reached through `walkDirs` sits under `path`, and none of the
directory components below `path` on its way there is blocklisted: the
`dirs[:] = ...` pruning acts before descending. -/
theorem walkDirs_path_shape {fs : FS} :
    ∀ {path : List String} {pf : List String × FileData}, pf ∈ walkDirs path fs →
      ∃ q, pf.1 = path ++ q ∧ ∀ d ∈ q.dropLast, d ∉ exclude_dirs := by
  induction fs with
  | nil => intro path pf h; simp [walkDirs] at h
  | file n d rest ih =>
    intro path pf h
    exact ih (by simpa [walkDirs] using h)
  | dir n sub rest ihs ihr =>
    intro path pf h
    rw [walkDirs, List.mem_append] at h
    rcases h with h | h
    · by_cases hn : n ∈ exclude_dirs
      · simp [hn] at h
      · rw [if_neg hn, List.mem_append] at h
        rcases h with h | h
        · obtain ⟨m, hm⟩ := mem_filesOf_shape h
          refine ⟨[n, m], by simpa using hm, ?_⟩
          intro d hd
          have : d = n := by simpa using hd
          simpa [this] using hn
        · obtain ⟨q, hq1, hq2⟩ := ihs h
          refine ⟨n :: q, by simpa using hq1, ?_⟩
          intro d hd
          rcases mem_dropLast_cons hd with h1 | h1
          · simpa [h1] using hn
          · exact hq2 d h1
    · exact ihr h

/-- C1: for a run that successfully opens the output path, the produced
document is exactly the header naming the repository root, a 50-character
`=` delimiter line and a blank line, followed by one section per accepted
file in traversal order — a `### SOURCE FILE: <relative path>` line, a
50-character `-` delimiter line, the decoded content and a blank-line
separator — and the reported `processed_files` count equals the number of
sections written. -/
theorem convert_repository_output_format (maxKB : Nat)
    (chardet : List Nat → Option String) (decode : String → List Nat → Option String)
    (repoPathStr : String) (ignoreLines : Option (List String)) (fs : FS) :
    (convert_repository maxKB chardet decode repoPathStr ignoreLines fs).document =
      specDocument repoPathStr
        ((acceptedFiles (initMaxFileSize maxKB) (load_gitignore ignoreLines) fs).map
          fun pf => (String.intercalate ("/") pf.1, read_source_file chardet decode pf.2)) ∧
    (convert_repository maxKB chardet decode repoPathStr ignoreLines fs).processed_files =
      ((acceptedFiles (initMaxFileSize maxKB) (load_gitignore ignoreLines) fs).map
        fun pf => (String.intercalate ("/") pf.1, read_source_file chardet decode pf.2)).length ∧
    (strMul ("=") 50).length = 50 ∧ (strMul ("-") 50).length = 50 := by
  refine ⟨?_, by simp [convert_repository], by decide, by decide⟩
  show _ = specDocument _ _
  rw [specDocument, List.map_map]
  rfl

/-- C2 (amended): the blocklist prunes directories before descending, so for
every file the traversal ever visits — hence every file it stats, opens, or
writes a section for, since classification and output both draw from the
walk list — no directory component of its relative path (no component before
the final file name) is in the static blocklist; files inside blocklisted
directories are never reached.  Accepted files are a sub-list of visited
files. -/
theorem walk_prunes_blocklisted_dirs (fs : FS) (m : Nat) (pats : List String)
    (p : List String) (f : FileData) (d : String)
    (h : (p, f) ∈ walk [] fs ∨ (p, f) ∈ acceptedFiles m pats fs)
    (hd : d ∈ p.dropLast) : d ∉ exclude_dirs := by
  have hw : (p, f) ∈ walk [] fs := by
    rcases h with h | h
    · exact h
    · exact (List.mem_filter.mp h).1
  rw [walk, List.mem_append] at hw
  rcases hw with hw | hw
  · obtain ⟨n, hn⟩ := mem_filesOf_shape hw
    simp only [List.nil_append] at hn
    rw [hn] at hd
    simp at hd
  · obtain ⟨q, hq1, hq2⟩ := walkDirs_path_shape hw
    simp only [List.nil_append] at hq1
    rw [hq1] at hd
    exact hq2 d hd

/-- C2 witness: in a repository with `src/a.txt`, the theorem applies to the
visited file `src/a.txt` and shows its directory component `src` is not
blocklisted. -/
theorem walk_prunes_blocklisted_dirs_witness :
    ("src") ∉ exclude_dirs :=
  walk_prunes_blocklisted_dirs
    (FS.dir ("src") (FS.file ("a.txt") ⟨[104], false, false, false⟩ FS.nil) FS.nil)
    102400 [] [("src"), ("a.txt")] ⟨[104], false, false, false⟩ ("src")
    (Or.inl (by decide)) (by decide)

/-- C2 counterexample: the claim as stated fails for a regular file whose own
name is in the blocklist — the blocklist only prunes directories, so a file
named `dist` at the repository root has `dist` (a blocklisted name) as a
component of its path, yet it is visited and accepted, and a section for it
is written. -/
theorem blocklist_named_file_is_processed :
    ([("dist")], (⟨[104], false, false, false⟩ : FileData)) ∈
        acceptedFiles 102400 []
          (FS.file ("dist") ⟨[104], false, false, false⟩ FS.nil) ∧
      ("dist") ∈ exclude_dirs ∧ ("dist") ∈ [("dist")] := by
  refine ⟨by decide, by decide, by decide⟩

/-- C3: the size rule is exact at the boundary `max_size * 1024`: with
classification I/O succeeding and no null byte sniffed, a file of size
`≤ max_size * 1024` bytes passes `is_text_file` and (when also not ignored)
is included, while a file strictly larger fails `is_text_file` and is
excluded whatever else holds. -/
theorem size_threshold_boundary (maxKB : Nat) (f : FileData)
    (hc : f.classifyError = false)
    (hn : (f.content.take 1024).contains 0 = false) :
    (f.content.length ≤ initMaxFileSize maxKB →
      is_text_file (initMaxFileSize maxKB) f = true) ∧
    (initMaxFileSize maxKB < f.content.length →
      is_text_file (initMaxFileSize maxKB) f = false) ∧
    (∀ pats fs p, (p, f) ∈ walk [] fs → is_ignored pats p = false →
      f.content.length ≤ initMaxFileSize maxKB →
      (p, f) ∈ acceptedFiles (initMaxFileSize maxKB) pats fs) ∧
    (∀ pats fs p, initMaxFileSize maxKB < f.content.length →
      (p, f) ∉ acceptedFiles (initMaxFileSize maxKB) pats fs) := by
  have hn2 : (0 : Nat) ∉ f.content.take 1024 := by simpa using hn
  have hsmall : f.content.length ≤ initMaxFileSize maxKB →
      is_text_file (initMaxFileSize maxKB) f = true := by
    intro hle
    have : ¬ initMaxFileSize maxKB < f.content.length := by omega
    simp [is_text_file, hc, hn2, this]
  have hbig : initMaxFileSize maxKB < f.content.length →
      is_text_file (initMaxFileSize maxKB) f = false := by
    intro hlt
    simp [is_text_file, hc, hlt]
  refine ⟨hsmall, hbig, ?_, ?_⟩
  · intro pats fs p hw hig hle
    rw [acceptedFiles, List.mem_filter]
    exact ⟨hw, by simp [hsmall hle, hig]⟩
  · intro pats fs p hlt hmem
    have := (List.mem_filter.mp hmem).2
    simp [hbig hlt] at this

set_option maxRecDepth 20000 in
/-- C3 witness: with a 100 KB threshold scaled to `maxKB = 1`, a 1024-byte
file sits exactly at the boundary and passes, and a 1025-byte file is one
byte over and fails. -/
theorem size_threshold_boundary_witness :
    is_text_file (initMaxFileSize 1)
        ⟨List.replicate 1024 97, false, false, false⟩ = true ∧
      is_text_file (initMaxFileSize 1)
        ⟨List.replicate 1025 97, false, false, false⟩ = false :=
  ⟨(size_threshold_boundary 1 ⟨List.replicate 1024 97, false, false, false⟩
      rfl (by decide)).1 (by decide),
   ((size_threshold_boundary 1 ⟨List.replicate 1025 97, false, false, false⟩
      rfl (by decide)).2).1 (by decide)⟩

/-- C4: a file whose first 1024 bytes contain a null byte is classified as
non-text and excluded from the output, regardless of its name, extension, or
any other property. -/
theorem null_byte_file_rejected (m : Nat) (f : FileData)
    (h : (f.content.take 1024).contains 0 = true) :
    is_text_file m f = false ∧
      ∀ pats fs p, (p, f) ∉ acceptedFiles m pats fs := by
  have hfalse : is_text_file m f = false := by
    rw [is_text_file]
    split
    · rfl
    · split
      · rfl
      · simp [h]
  refine ⟨hfalse, ?_⟩
  intro pats fs p hmem
  have := (List.mem_filter.mp hmem).2
  simp [hfalse] at this

/-- C4 witness: a one-byte file containing only a null byte, named with a
text-suggesting extension, is rejected and never accepted. -/
theorem null_byte_file_rejected_witness :
    is_text_file 102400 (⟨[0], false, false, false⟩ : FileData) = false ∧
      ([("a.txt")], (⟨[0], false, false, false⟩ : FileData)) ∉
        acceptedFiles 102400 []
          (FS.file ("a.txt") ⟨[0], false, false, false⟩ FS.nil) :=
  ⟨(null_byte_file_rejected 102400 ⟨[0], false, false, false⟩ (by decide)).1,
   (null_byte_file_rejected 102400 ⟨[0], false, false, false⟩ (by decide)).2
     [] (FS.file ("a.txt") ⟨[0], false, false, false⟩ FS.nil) [("a.txt")]⟩

/-- C8 (amended): with the filesystem tree held fixed, a run whose ignore
file is absent behaves identically to a run whose ignore file is read as
empty — both load an empty pattern set, so document and count agree; the
original claim fails only because an empty ignore file physically present in
the root is itself an accepted file and gains its own section. -/
theorem absent_ignore_eq_empty_ignore (maxKB : Nat)
    (chardet : List Nat → Option String) (decode : String → List Nat → Option String)
    (repoPathStr : String) (fs : FS) :
    convert_repository maxKB chardet decode repoPathStr none fs =
      convert_repository maxKB chardet decode repoPathStr (some []) fs := rfl

/-- C8 counterexample: running on a root with no ignore file versus the same
root with an empty `.gitignore` present does not produce identical output —
the empty ignore file is itself concatenated as a section, so the processed
count goes from 0 to 1 and the documents differ. -/
theorem empty_ignore_file_changes_output :
    (convert_repository 100 (fun _ => none) pythonDecode ("repo")
        none FS.nil).processed_files = 0 ∧
    (convert_repository 100 (fun _ => none) pythonDecode ("repo")
        (some []) (FS.file (".gitignore") ⟨[], false, false, false⟩
          FS.nil)).processed_files = 1 ∧
    (convert_repository 100 (fun _ => none) pythonDecode ("repo")
        none FS.nil).document ≠
      (convert_repository 100 (fun _ => none) pythonDecode ("repo")
        (some []) (FS.file (".gitignore") ⟨[], false, false, false⟩
          FS.nil)).document := by
  refine ⟨by decide, by decide, by decide⟩

/-- C9: encoding detection depends only on an initial prefix of the file no
longer than 10 KiB (two files agreeing on their first 10240 bytes — in fact
on their first 10000 — are detected identically), it returns the fixed
default `utf-8` when the detection heuristic yields nothing, and it returns
`utf-8` when the read for detection raises. -/
theorem detect_encoding_behavior (chardet : List Nat → Option String)
    (f g : FileData) (hf : f.detectError = false) (hg : g.detectError = false)
    (h : f.content.take 10240 = g.content.take 10240) :
    detect_encoding chardet f = detect_encoding chardet g ∧
    (chardet (f.content.take 10000) = none →
      detect_encoding chardet f = ("utf-8")) ∧
    (∀ f2 : FileData, f2.detectError = true →
      detect_encoding chardet f2 = ("utf-8")) := by
  have h10 : f.content.take 10000 = g.content.take 10000 := by
    have h1 : (f.content.take 10240).take 10000 = (g.content.take 10240).take 10000 := by
      rw [h]
    rw [List.take_take, List.take_take] at h1
    simpa using h1
  refine ⟨by rw [detect_encoding, detect_encoding, hf, hg, h10], ?_, ?_⟩
  · intro hc
    simp [detect_encoding, hf, hc]
  · intro f2 h2
    simp [detect_encoding, h2]

/-- C9 witness: the empty file agrees with itself on its first 10240 bytes,
and with a detector that reports nothing the fallback `utf-8` is returned. -/
theorem detect_encoding_behavior_witness :
    detect_encoding (fun _ => none) (⟨[], false, false, false⟩ : FileData) = ("utf-8") :=
  (detect_encoding_behavior (fun _ => none) ⟨[], false, false, false⟩
      ⟨[], false, false, false⟩ rfl rfl rfl).2.1 rfl

/-- C6 (amended): a classification I/O error rejects the file; an I/O error
on the content read, or a codec-lookup failure on the detected encoding,
yields the empty string as the file's content; but an I/O error during
encoding detection alone only triggers the `utf-8` fallback — all four are
absorbed locally, returning normally instead of propagating. -/
theorem error_containment (m : Nat) (chardet : List Nat → Option String)
    (decode : String → List Nat → Option String) (f : FileData) :
    (f.classifyError = true → is_text_file m f = false) ∧
    (f.readError = true → read_source_file chardet decode f = ("")) ∧
    (decode (detect_encoding chardet f) f.content = none →
      read_source_file chardet decode f = ("")) ∧
    (f.detectError = true → detect_encoding chardet f = ("utf-8")) := by
  refine ⟨?_, ?_, ?_, ?_⟩
  · intro h
    simp [is_text_file, h]
  · intro h
    simp [read_source_file, h]
  · intro h
    by_cases hr : f.readError
    · simp [read_source_file, hr]
    · simp only [read_source_file]
      rw [if_neg hr, h]
  · intro h
    simp [detect_encoding, h]

/-- C6 witness: for a file whose classification and content reads both raise,
the theorem gives rejection by `is_text_file` and empty content from
`read_source_file`. -/
theorem error_containment_witness :
    is_text_file 102400 (⟨[104], true, false, true⟩ : FileData) = false ∧
      read_source_file (fun _ => none) pythonDecode
        (⟨[104], true, false, true⟩ : FileData) = ("") :=
  ⟨(error_containment 102400 (fun _ => none) pythonDecode
      ⟨[104], true, false, true⟩).1 rfl,
   (error_containment 102400 (fun _ => none) pythonDecode
      ⟨[104], true, false, true⟩).2.1 rfl⟩

/-- C6 counterexample: an I/O error during encoding detection does not make
the file contribute an empty string, contrary to the claim — `detect_encoding`
swallows its own exception and falls back to `utf-8`, after which the content
is read and decoded normally: a file with bytes `hi` whose detection read
raises still contributes `hi`. -/
theorem detect_error_still_reads_content :
    (⟨[104, 105], false, true, false⟩ : FileData).detectError = true ∧
      read_source_file (fun _ => none) pythonDecode
        (⟨[104, 105], false, true, false⟩ : FileData) = ("hi") ∧
      ("hi") ≠ ("") := by
  refine ⟨rfl, by decide, by decide⟩

/-- C5: a file whose relative path matches some loaded pattern is never among
the accepted files (so no section is written for it), while a visited file
that passes the text check and matches no loaded pattern is accepted. -/
theorem ignore_pattern_exclusion (pats : List String) (m : Nat) (fs : FS)
    (p : List String) (f : FileData) :
    (∀ pat, pat ∈ pats → pathMatch p pat = true →
      (p, f) ∉ acceptedFiles m pats fs) ∧
    ((p, f) ∈ walk [] fs → is_text_file m f = true →
      (∀ pat ∈ pats, pathMatch p pat = false) →
      (p, f) ∈ acceptedFiles m pats fs) := by
  constructor
  · intro pat hpat hmatch hmem
    have h2 := (List.mem_filter.mp hmem).2
    have hig : is_ignored pats p = true :=
      List.any_eq_true.mpr ⟨pat, hpat, hmatch⟩
    rw [hig] at h2
    simp at h2
  · intro hw htxt hnone
    rw [acceptedFiles, List.mem_filter]
    refine ⟨hw, ?_⟩
    have hig : is_ignored pats p = false := by
      rw [is_ignored, List.any_eq_false]
      intro pat hpat
      simp [hnone pat hpat]
    simp [htxt, hig]

/-- C5 witness: with loaded pattern `*.log`, the file `debug.log` is excluded
and its non-matching sibling `main.py` (text, within size) is included. -/
theorem ignore_pattern_exclusion_witness :
    ([("debug.log")], (⟨[108], false, false, false⟩ : FileData)) ∉
        acceptedFiles 102400 [("*.log")]
          (FS.file ("debug.log") ⟨[108], false, false, false⟩
            (FS.file ("main.py") ⟨[112], false, false, false⟩ FS.nil)) ∧
      ([("main.py")], (⟨[112], false, false, false⟩ : FileData)) ∈
        acceptedFiles 102400 [("*.log")]
          (FS.file ("debug.log") ⟨[108], false, false, false⟩
            (FS.file ("main.py") ⟨[112], false, false, false⟩ FS.nil)) :=
  ⟨(ignore_pattern_exclusion [("*.log")] 102400
      (FS.file ("debug.log") ⟨[108], false, false, false⟩
        (FS.file ("main.py") ⟨[112], false, false, false⟩ FS.nil))
      [("debug.log")] ⟨[108], false, false, false⟩).1
      ("*.log") (by decide) (by decide),
   (ignore_pattern_exclusion [("*.log")] 102400
      (FS.file ("debug.log") ⟨[108], false, false, false⟩
        (FS.file ("main.py") ⟨[112], false, false, false⟩ FS.nil))
      [("main.py")] ⟨[112], false, false, false⟩).2
      (by decide) (by decide) (by decide)⟩

/-- Splitting a separator-free character list at `/` returns it whole. -/
theorem splitOnSlash_no_slash (cs : List Char) (h : ('/') ∉ cs) :
    splitOnSlash cs = [cs] := by
  induction cs with
  | nil => rfl
  | cons c cs ih =>
    have hc : ¬ c = '/' := by
      intro hc
      exact h (by simp [hc])
    have h2 : ('/') ∉ cs := fun hx => h (List.mem_cons_of_mem c hx)
    rw [splitOnSlash]
    simp only [ih h2, if_neg hc]

/-- A non-empty separator-free pattern parses to a single component. -/
theorem parseParts_no_slash (cs : List Char) (h : ('/') ∉ cs) (h2 : cs ≠ []) :
    parseParts cs = [cs] := by
  rw [parseParts, splitOnSlash_no_slash cs h]
  simp [h2]

/-- C10: a loaded pattern without a path separator is matched, right-aligned,
against just the final component of the relative path, so it matches (and via
`is_ignored` excludes) files at every depth, not only at the repository
root. -/
theorem basename_pattern_matches_any_depth (pat : String) (rs : List String)
    (lastc : String) (h : ('/') ∉ pat.data) (h2 : pat.data ≠ []) :
    pathMatch (rs ++ [lastc]) pat = fnmatchComp pat.data lastc.data ∧
    (∀ pats, pat ∈ pats → fnmatchComp pat.data lastc.data = true →
      is_ignored pats (rs ++ [lastc]) = true) := by
  have hmain : pathMatch (rs ++ [lastc]) pat = fnmatchComp pat.data lastc.data := by
    rw [pathMatch, parseParts_no_slash pat.data h h2]
    have hlen : (rs ++ [lastc]).length = rs.length + 1 := by simp
    have hle : (1 : Nat) ≤ (rs ++ [lastc]).length := by simp
    have hdrop : (rs ++ [lastc]).drop ((rs ++ [lastc]).length - 1) = [lastc] := by
      rw [hlen]
      exact List.drop_left rs [lastc]
    simp [hdrop, hle]
  refine ⟨hmain, ?_⟩
  intro pats hpat hf
  exact List.any_eq_true.mpr ⟨pat, hpat, by rw [hmain, hf]⟩

/-- C10 witness: pattern `*.log` (no separator) excludes `sub/dir/debug.log`,
a match two directories deep. -/
theorem basename_pattern_matches_any_depth_witness :
    is_ignored [("*.log")] [("sub"), ("dir"), ("debug.log")] = true :=
  (basename_pattern_matches_any_depth ("*.log") [("sub"), ("dir")] ("debug.log")
      (by decide) (by decide)).2 [("*.log")] (by decide) (by decide)

/-- Every UTF-8 encoding of a scalar value is non-empty. -/
theorem utf8EncodeChar_length_pos (c : Nat) : 1 ≤ (utf8EncodeChar c).length := by
  rw [utf8EncodeChar]
  repeat' split
  all_goals simp

/-- Decoding one encoded ASCII scalar consumes exactly its byte. -/
theorem utf8DecodeGo_enc_one (fuel c : Nat) (rest : List Nat) (h : c < 128) :
    utf8DecodeGo (fuel + 1) (utf8EncodeChar c ++ rest) = c :: utf8DecodeGo fuel rest := by
  rw [utf8EncodeChar, if_pos h]
  simp only [List.cons_append, List.nil_append, utf8DecodeGo]
  rw [if_pos h]
  simp only [List.append_eq, List.nil_append]

/-- Decoding one encoded two-byte scalar consumes exactly its bytes. -/
theorem utf8DecodeGo_enc_two (fuel c : Nat) (rest : List Nat)
    (h1 : 128 ≤ c) (h2 : c < 2048) :
    utf8DecodeGo (fuel + 1) (utf8EncodeChar c ++ rest) = c :: utf8DecodeGo fuel rest := by
  rw [utf8EncodeChar, if_neg (by omega), if_pos h2]
  simp only [List.cons_append, List.nil_append, utf8DecodeGo]
  rw [if_neg (by omega), if_neg (by omega), if_pos (by omega)]
  simp only [List.append_eq, List.cons_append, List.nil_append]
  rw [if_pos (by omega : 128 ≤ 128 + c % 64 ∧ 128 + c % 64 < 192)]
  have hv : (192 + c / 64 - 192) * 64 + (128 + c % 64 - 128) = c := by omega
  rw [hv]

/-- Decoding one encoded three-byte scalar (not a surrogate) consumes exactly
its bytes. -/
theorem utf8DecodeGo_enc_three (fuel c : Nat) (rest : List Nat)
    (h1 : 2048 ≤ c) (h2 : c < 65536) (h3 : c < 55296 ∨ 57343 < c) :
    utf8DecodeGo (fuel + 1) (utf8EncodeChar c ++ rest) = c :: utf8DecodeGo fuel rest := by
  rw [utf8EncodeChar, if_neg (by omega), if_neg (by omega), if_pos h2]
  simp only [List.cons_append, List.nil_append, utf8DecodeGo]
  rw [if_neg (by omega), if_neg (by omega), if_neg (by omega), if_pos (by omega)]
  simp only [List.append_eq, List.cons_append, List.nil_append]
  rw [if_pos (by omega :
    (128 ≤ 128 + c / 64 % 64 ∧ 128 + c / 64 % 64 < 192) ∧
      (128 ≤ 128 + c % 64 ∧ 128 + c % 64 < 192))]
  rw [if_neg (by omega :
    ¬ ((224 + c / 4096 - 224) * 4096 + (128 + c / 64 % 64 - 128) * 64 + (128 + c % 64 - 128) < 2048 ∨
      55296 ≤ (224 + c / 4096 - 224) * 4096 + (128 + c / 64 % 64 - 128) * 64 + (128 + c % 64 - 128) ∧
        (224 + c / 4096 - 224) * 4096 + (128 + c / 64 % 64 - 128) * 64 + (128 + c % 64 - 128) ≤ 57343))]
  have hv : (224 + c / 4096 - 224) * 4096 + (128 + c / 64 % 64 - 128) * 64 + (128 + c % 64 - 128) = c := by
    omega
  rw [hv]

/-- Decoding one encoded four-byte scalar consumes exactly its bytes. -/
theorem utf8DecodeGo_enc_four (fuel c : Nat) (rest : List Nat)
    (h1 : 65536 ≤ c) (h2 : c < 1114112) :
    utf8DecodeGo (fuel + 1) (utf8EncodeChar c ++ rest) = c :: utf8DecodeGo fuel rest := by
  rw [utf8EncodeChar, if_neg (by omega), if_neg (by omega), if_neg (by omega)]
  simp only [List.cons_append, List.nil_append, utf8DecodeGo]
  rw [if_neg (by omega), if_neg (by omega), if_neg (by omega), if_neg (by omega),
    if_pos (by omega)]
  simp only [List.append_eq, List.cons_append, List.nil_append]
  rw [if_pos (by omega :
    (128 ≤ 128 + c / 4096 % 64 ∧ 128 + c / 4096 % 64 < 192) ∧
      (128 ≤ 128 + c / 64 % 64 ∧ 128 + c / 64 % 64 < 192) ∧
      (128 ≤ 128 + c % 64 ∧ 128 + c % 64 < 192))]
  rw [if_neg (by omega :
    ¬ ((240 + c / 262144 - 240) * 262144 + (128 + c / 4096 % 64 - 128) * 4096 +
        (128 + c / 64 % 64 - 128) * 64 + (128 + c % 64 - 128) < 65536 ∨
      1114112 ≤ (240 + c / 262144 - 240) * 262144 + (128 + c / 4096 % 64 - 128) * 4096 +
        (128 + c / 64 % 64 - 128) * 64 + (128 + c % 64 - 128)))]
  have hv : (240 + c / 262144 - 240) * 262144 + (128 + c / 4096 % 64 - 128) * 4096 +
      (128 + c / 64 % 64 - 128) * 64 + (128 + c % 64 - 128) = c := by omega
  rw [hv]

/-- Decoding an encoded valid scalar followed by anything consumes exactly
the scalar's bytes and continues. -/
theorem utf8DecodeGo_enc (fuel c : Nat) (rest : List Nat) (h1 : c < 1114112)
    (h2 : c < 55296 ∨ 57343 < c) :
    utf8DecodeGo (fuel + 1) (utf8EncodeChar c ++ rest) = c :: utf8DecodeGo fuel rest := by
  by_cases ha : c < 128
  · exact utf8DecodeGo_enc_one fuel c rest ha
  · by_cases hb : c < 2048
    · exact utf8DecodeGo_enc_two fuel c rest (by omega) hb
    · by_cases hc : c < 65536
      · exact utf8DecodeGo_enc_three fuel c rest (by omega) hc h2
      · exact utf8DecodeGo_enc_four fuel c rest (by omega) h1

/-- Every `Char` carries a valid Unicode scalar value: in range and not a
surrogate. -/
theorem char_toNat_valid (ch : Char) :
    ch.toNat < 1114112 ∧ (ch.toNat < 55296 ∨ 57343 < ch.toNat) := by
  have he : ch.toNat = ch.val.toNat := rfl
  rcases ch.valid with h | ⟨h1, h2⟩
  · rw [he]
    exact ⟨by omega, Or.inl h⟩
  · rw [he]
    exact ⟨h2, Or.inr h1⟩

/-- Decoding the concatenated UTF-8 encodings of a character list recovers
exactly its scalar values, for any sufficient fuel. -/
theorem utf8DecodeGo_flatMap (l : List Char) : ∀ fuel : Nat,
    (l.flatMap fun ch => utf8EncodeChar ch.toNat).length < fuel →
    utf8DecodeGo fuel (l.flatMap fun ch => utf8EncodeChar ch.toNat) = l.map Char.toNat := by
  induction l with
  | nil =>
    intro fuel h
    cases fuel with
    | zero => omega
    | succ f => simp [utf8DecodeGo]
  | cons ch l ih =>
    intro fuel h
    rw [List.flatMap_cons] at h ⊢
    cases fuel with
    | zero => omega
    | succ f =>
      obtain ⟨hv1, hv2⟩ := char_toNat_valid ch
      rw [utf8DecodeGo_enc f ch.toNat _ hv1 hv2, List.map_cons]
      have hlen : (l.flatMap fun ch => utf8EncodeChar ch.toNat).length < f := by
        have := utf8EncodeChar_length_pos ch.toNat
        rw [List.length_append] at h
        omega
      rw [ih f hlen]

/-- Round trip at the scalar level: lossy UTF-8 decoding of the UTF-8 bytes
of a string yields the string's scalar values with nothing dropped. -/
theorem utf8DecodeIgnore_strUtf8 (s : String) :
    utf8DecodeIgnore (strUtf8 s) = s.data.map Char.toNat := by
  rw [utf8DecodeIgnore, strUtf8]
  exact utf8DecodeGo_flatMap s.data _ (by omega)

/-- Round trip at the string level: the modelled `utf-8` codec decodes the
UTF-8 bytes of any string back to that string. -/
theorem pythonDecode_utf8_strUtf8 (s : String) :
    pythonDecode ("utf-8") (strUtf8 s) = some s := by
  rw [pythonDecode, if_pos rfl, utf8DecodeIgnore_strUtf8, List.map_map]
  have hco : (Char.ofNat ∘ Char.toNat) = id := by
    funext c
    exact Char.ofNat_toNat c
  rw [hco, List.map_id]

/-- C7 (amended): for an accepted file whose bytes are the well-formed UTF-8
encoding of a text `s`, if encoding detection settles on `utf-8` — which
covers both the heuristic reporting `utf-8` and the fallback when it reports
nothing or its read raises — then the decoded content written to the file's
section is exactly `s`, unmutated. -/
theorem utf8_roundtrip_when_detected (chardet : List Nat → Option String)
    (f : FileData) (s : String) (hcont : f.content = strUtf8 s)
    (hr : f.readError = false)
    (henc : detect_encoding chardet f = ("utf-8")) :
    read_source_file chardet pythonDecode f = s := by
  rw [read_source_file]
  simp only [henc, hr, hcont, Bool.false_eq_true, if_false,
    pythonDecode_utf8_strUtf8]

/-- C7 witness: a two-character file `hé` stored as well-formed UTF-8, with a
detector that answers `utf-8`, reads back as exactly `hé`. -/
theorem utf8_roundtrip_when_detected_witness :
    read_source_file (fun _ => some ("utf-8")) pythonDecode
      ⟨strUtf8 ("hé"), false, false, false⟩ = ("hé") :=
  utf8_roundtrip_when_detected (fun _ => some ("utf-8"))
    ⟨strUtf8 ("hé"), false, false, false⟩ ("hé") rfl rfl rfl

/-- A 10001-character text: ten thousand `a`s followed by `é`. -/
def cexString : String := String.mk (List.replicate 10000 ('a') ++ [('é')])

/-- The well-formed UTF-8 bytes of `cexString`: ten thousand `0x61` bytes
followed by the two-byte sequence `0xC3 0xA9`. -/
def cexContent : List Nat := List.replicate 10000 97 ++ [195, 169]

/-- The counterexample file: content `cexContent`, no I/O errors anywhere. -/
def cexFile : FileData := ⟨cexContent, false, false, false⟩

/-- Concatenating the encodings over a replicated character whose encoding is
a single byte replicates that byte. -/
theorem flatMap_replicate_one (n : Nat) (f : Char → List Nat) (a : Char) (b : Nat)
    (h : f a = [b]) : (List.replicate n a).flatMap f = List.replicate n b := by
  induction n with
  | zero => rfl
  | succ k ih =>
    rw [List.replicate_succ, List.flatMap_cons, h, ih, List.replicate_succ,
      List.singleton_append]

/-- The counterexample content is exactly the UTF-8 encoding of
`cexString`. -/
theorem cexContent_eq_strUtf8 : strUtf8 cexString = cexContent := by
  have h1 : (List.replicate 10000 ('a')).flatMap (fun c => utf8EncodeChar c.toNat) =
      List.replicate 10000 97 :=
    flatMap_replicate_one 10000 _ ('a') 97 (by decide)
  have h2 : ([('é')] : List Char).flatMap (fun c => utf8EncodeChar c.toNat) =
      [195, 169] := by decide
  show (List.replicate 10000 ('a') ++ [('é')]).flatMap (fun c => utf8EncodeChar c.toNat) =
    cexContent
  rw [List.flatMap_append, h1, h2, cexContent]

/-- On the counterexample file the detector sees only the first 10000 bytes —
all 7-bit — and reports `ascii`. -/
theorem cexFile_detected_ascii : detect_encoding chardet0 cexFile = ("ascii") := by
  have htake : cexFile.content.take 10000 = List.replicate 10000 97 := by
    show cexContent.take 10000 = List.replicate 10000 97
    rw [cexContent]
    exact List.take_left' (by rw [List.length_replicate])
  have hall : (List.replicate 10000 (97 : Nat)).all (fun b => decide (b < 128)) = true := by
    rw [List.all_eq_true]
    intro b hb
    have := List.eq_of_mem_replicate hb
    simp [this]
  have hdet : chardet0 (cexFile.content.take 10000) = some ("ascii") := by
    rw [htake, chardet0, if_pos hall]
  rw [detect_encoding]
  simp only [hdet]
  rfl

/-- Reading the counterexample file through the pipeline decodes it with the
misdetected `ascii` codec, which drops the two non-ASCII bytes. -/
theorem cexFile_read : read_source_file chardet0 pythonDecode cexFile =
    String.mk (List.replicate 10000 ('a')) := by
  have hfilt : cexContent.filter (fun b => decide (b < 128)) =
      List.replicate 10000 97 := by
    rw [cexContent, List.filter_append]
    have ha : (List.replicate 10000 (97 : Nat)).filter (fun b => decide (b < 128)) =
        List.replicate 10000 97 := by
      apply List.filter_eq_self.mpr
      intro a ha
      have := List.eq_of_mem_replicate ha
      simp [this]
    have hb : ([195, 169] : List Nat).filter (fun b => decide (b < 128)) = [] := by
      decide
    rw [ha, hb, List.append_nil]
  rw [read_source_file]
  simp only [cexFile_detected_ascii]
  have hr : cexFile.readError = false := rfl
  rw [hr]
  simp only [Bool.false_eq_true, if_false]
  have hdec : pythonDecode ("ascii") cexFile.content =
      some (String.mk (List.replicate 10000 ('a'))) := by
    rw [pythonDecode, if_neg (by decide), if_pos rfl]
    show some (String.mk ((cexContent.filter (fun b => decide (b < 128))).map Char.ofNat)) = _
    rw [hfilt, List.map_replicate]
  rw [hdec]

/-- C7 counterexample: detection plus decode is not the identity on
well-formed UTF-8 — for a file of ten thousand ASCII bytes followed by a
two-byte UTF-8 character, the detector (seeing only the all-ASCII first
10000 bytes) reports `ascii` and the lossy decode silently drops the final
character, so the section content differs from the original text. -/
theorem ascii_misdetection_mutates_utf8 :
    cexFile.content = strUtf8 cexString ∧ cexFile.detectError = false ∧
      cexFile.readError = false ∧
      read_source_file chardet0 pythonDecode cexFile ≠ cexString := by
  refine ⟨cexContent_eq_strUtf8.symm, rfl, rfl, ?_⟩
  rw [cexFile_read]
  intro h
  have h2 : (String.mk (List.replicate 10000 ('a'))).data.length = cexString.data.length :=
    congrArg (fun t => t.data.length) h
  have e1 : (String.mk (List.replicate 10000 ('a'))).data.length = 10000 := by
    show (List.replicate 10000 ('a')).length = 10000
    rw [List.length_replicate]
  have e2 : cexString.data.length = 10001 := by
    show (List.replicate 10000 ('a') ++ [('é')]).length = 10001
    rw [List.length_append, List.length_replicate, List.length_singleton]
  rw [e1, e2] at h2
  omega
